import Mathlib

/-!
Verification of the filesystem task queue in
`src/flickypedia/uploadr/fs_queue.py` (`AbstractFilesystemTaskQueue`).

The queue stores each task as a single file named by the task id.  The
state of a task is the directory that holds its file: one directory per
lifecycle state (`waiting`, `in_progress`, `failed`, `completed`) plus a
`tmp` scratch directory.  We embed the filesystem shallowly: a directory
is an association list from file names to file contents (a task record)
together with a modification time, and the queue state is the record of
the five directories.  Machine-level details that the queue does not
depend on (byte-level serialisation, uuid generation, wall-clock time)
are abstracted: serialisation is the identity, ids and timestamps are
parameters supplied by the caller of each operation.
-/

namespace FsQueue

/-- The four lifecycle states of `fs_queue.py` (`State` literal type). -/
inductive State where
  | waiting
  | in_progress
  | failed
  | completed
deriving DecidableEq, Repr

/-- One entry of a task's append-only event log (`TaskEvent`). -/
structure TaskEvent where
  time : Nat
  description : String
deriving DecidableEq, Repr

/-- A persisted task record (`Task` in `fs_queue.py`).  The payload type
`α` is opaque to the queue, exactly as `data: Any` is in the source. -/
structure Task (α : Type) where
  id : String
  events : List TaskEvent
  state : State
  data : α
deriving DecidableEq, Repr

/-- A file on disk: its parsed content and its modification time
(`os.path.getmtime`).  Renames preserve the modification time. -/
structure FsFile (α : Type) where
  content : Task α
  mtime : Nat
deriving DecidableEq, Repr

/-- A directory: an association list from file names to files.  List
order models directory-listing order (`os.listdir`). -/
abbrev Dir (α : Type) := List (String × FsFile α)

/-- First entry with the given name, mirroring an `open` by path. -/
def lookupEntry {α : Type} : Dir α → String → Option (FsFile α)
  | [], _ => none
  | e :: es, n => if e.1 = n then some e.2 else lookupEntry es n

/-- Create or overwrite the file with the given name (an existing file
keeps its position in the listing; a new file is appended). -/
def insertEntry {α : Type} : Dir α → String → FsFile α → Dir α
  | [], n, f => [(n, f)]
  | e :: es, n, f => if e.1 = n then (n, f) :: es else e :: insertEntry es n f

/-- Delete the file with the given name. -/
def removeEntry {α : Type} : Dir α → String → Dir α
  | [], _ => []
  | e :: es, n => if e.1 = n then removeEntry es n else e :: removeEntry es n

/-- A real directory never lists the same name twice. -/
def keysNodup {α : Type} (d : Dir α) : Prop :=
  (d.map Prod.fst).Nodup

instance {α : Type} (d : Dir α) : Decidable (keysNodup d) :=
  inferInstanceAs (Decidable ((d.map Prod.fst).Nodup))

@[simp]
theorem lookupEntry_nil {α : Type} (n : String) :
    lookupEntry ([] : Dir α) n = none := rfl

theorem lookupEntry_cons {α : Type} (e : String × FsFile α) (es : Dir α) (n : String) :
    lookupEntry (e :: es) n = if e.1 = n then some e.2 else lookupEntry es n := rfl

theorem mem_of_lookupEntry {α : Type} {d : Dir α} {n : String} {f : FsFile α}
    (h : lookupEntry d n = some f) : (n, f) ∈ d := by
  induction d with
  | nil => simp [lookupEntry] at h
  | cons e es ih =>
    rw [lookupEntry_cons] at h
    by_cases he : e.1 = n
    · simp only [he, if_pos, Option.some.injEq] at h
      have : e = (n, f) := by
        cases e
        simp_all
      rw [this]
      exact List.mem_cons_self _ _
    · simp only [he, if_neg, if_false] at h
      exact List.mem_cons_of_mem _ (ih h)

theorem lookupEntry_eq_some_of_mem {α : Type} {d : Dir α} {n : String} {f : FsFile α}
    (hnd : keysNodup d) (hm : (n, f) ∈ d) : lookupEntry d n = some f := by
  induction d with
  | nil => simp at hm
  | cons e es ih =>
    unfold keysNodup at hnd
    rw [List.map_cons, List.nodup_cons] at hnd
    rw [List.mem_cons] at hm
    rw [lookupEntry_cons]
    rcases hm with hm | hm
    · rw [← hm]
      simp
    · have hne : e.1 ≠ n := by
        intro hc
        apply hnd.1
        rw [hc]
        exact List.mem_map_of_mem Prod.fst hm
      simp only [hne, if_false]
      exact ih hnd.2 hm

theorem insertEntry_cons {α : Type} (e : String × FsFile α) (es : Dir α) (n : String)
    (f : FsFile α) :
    insertEntry (e :: es) n f = if e.1 = n then (n, f) :: es else e :: insertEntry es n f := rfl

theorem removeEntry_cons {α : Type} (e : String × FsFile α) (es : Dir α) (n : String) :
    removeEntry (e :: es) n = if e.1 = n then removeEntry es n else e :: removeEntry es n := rfl

@[simp]
theorem lookupEntry_insertEntry_self {α : Type} (d : Dir α) (n : String) (f : FsFile α) :
    lookupEntry (insertEntry d n f) n = some f := by
  induction d with
  | nil => simp [insertEntry, lookupEntry_cons]
  | cons e es ih =>
    rw [insertEntry_cons]
    by_cases he : e.1 = n
    · rw [if_pos he, lookupEntry_cons]
      simp
    · rw [if_neg he, lookupEntry_cons, if_neg he]
      exact ih

@[simp]
theorem lookupEntry_insertEntry_ne {α : Type} (d : Dir α) (n m : String) (f : FsFile α)
    (hmn : m ≠ n) : lookupEntry (insertEntry d n f) m = lookupEntry d m := by
  have hnm : ¬ (n : String) = m := fun hc => hmn hc.symm
  induction d with
  | nil => simp [insertEntry, lookupEntry_cons, hnm]
  | cons e es ih =>
    rw [insertEntry_cons]
    by_cases he : e.1 = n
    · have hem : ¬ e.1 = m := by rw [he]; exact hnm
      rw [if_pos he, lookupEntry_cons, lookupEntry_cons, if_neg hnm, if_neg hem]
    · rw [if_neg he, lookupEntry_cons, lookupEntry_cons]
      by_cases hem : e.1 = m
      · rw [if_pos hem, if_pos hem]
      · rw [if_neg hem, if_neg hem]
        exact ih

@[simp]
theorem lookupEntry_removeEntry_self {α : Type} (d : Dir α) (n : String) :
    lookupEntry (removeEntry d n) n = none := by
  induction d with
  | nil => simp [removeEntry]
  | cons e es ih =>
    rw [removeEntry_cons]
    by_cases he : e.1 = n
    · rw [if_pos he]
      exact ih
    · rw [if_neg he, lookupEntry_cons, if_neg he]
      exact ih

@[simp]
theorem lookupEntry_removeEntry_ne {α : Type} (d : Dir α) (n m : String) (hmn : m ≠ n) :
    lookupEntry (removeEntry d n) m = lookupEntry d m := by
  induction d with
  | nil => simp [removeEntry]
  | cons e es ih =>
    rw [removeEntry_cons]
    by_cases he : e.1 = n
    · have hem : ¬ e.1 = m := by rw [he]; exact fun hc => hmn hc.symm
      rw [if_pos he, lookupEntry_cons, if_neg hem]
      exact ih
    · rw [if_neg he, lookupEntry_cons, lookupEntry_cons]
      by_cases hem : e.1 = m
      · rw [if_pos hem, if_pos hem]
      · rw [if_neg hem, if_neg hem]
        exact ih

theorem removeEntry_of_lookup_none {α : Type} (d : Dir α) (n : String)
    (h : lookupEntry d n = none) : removeEntry d n = d := by
  induction d with
  | nil => rfl
  | cons e es ih =>
    rw [lookupEntry_cons] at h
    by_cases he : e.1 = n
    · rw [if_pos he] at h
      exact absurd h (by simp)
    · rw [if_neg he] at h
      rw [removeEntry_cons, if_neg he, ih h]

theorem removeEntry_insertEntry {α : Type} (d : Dir α) (n : String) (f : FsFile α) :
    removeEntry (insertEntry d n f) n = removeEntry d n := by
  induction d with
  | nil => simp [insertEntry, removeEntry, removeEntry_cons]
  | cons e es ih =>
    rw [insertEntry_cons]
    by_cases he : e.1 = n
    · rw [if_pos he, removeEntry_cons, removeEntry_cons, if_pos he]
      simp
    · rw [if_neg he, removeEntry_cons, removeEntry_cons, if_neg he, if_neg he, ih]

theorem mem_keys_insertEntry {α : Type} (d : Dir α) (n m : String) (f : FsFile α)
    (h : m ∈ (insertEntry d n f).map Prod.fst) : m = n ∨ m ∈ d.map Prod.fst := by
  induction d with
  | nil =>
    left
    simpa [insertEntry] using h
  | cons e es ih =>
    rw [insertEntry_cons] at h
    by_cases he : e.1 = n
    · rw [if_pos he, List.map_cons, List.mem_cons] at h
      rcases h with h | h
      · exact Or.inl h
      · right
        rw [List.map_cons, List.mem_cons]
        exact Or.inr h
    · rw [if_neg he, List.map_cons, List.mem_cons] at h
      rcases h with h | h
      · right
        rw [List.map_cons, List.mem_cons]
        exact Or.inl h
      · rcases ih h with h | h
        · exact Or.inl h
        · right
          rw [List.map_cons, List.mem_cons]
          exact Or.inr h

theorem keysNodup_insertEntry {α : Type} (d : Dir α) (n : String) (f : FsFile α)
    (h : keysNodup d) : keysNodup (insertEntry d n f) := by
  induction d with
  | nil => simp [insertEntry, keysNodup]
  | cons e es ih =>
    unfold keysNodup at h ⊢
    rw [List.map_cons, List.nodup_cons] at h
    rw [insertEntry_cons]
    by_cases he : e.1 = n
    · rw [if_pos he, List.map_cons, List.nodup_cons]
      exact ⟨by rw [← he]; exact h.1, h.2⟩
    · rw [if_neg he, List.map_cons, List.nodup_cons]
      constructor
      · intro hc
        rcases mem_keys_insertEntry es n e.1 f hc with hc | hc
        · exact he hc
        · exact h.1 hc
      · exact ih h.2

theorem keys_removeEntry_sublist {α : Type} (d : Dir α) (n : String) :
    ((removeEntry d n).map Prod.fst).Sublist (d.map Prod.fst) := by
  induction d with
  | nil => simp [removeEntry]
  | cons e es ih =>
    rw [removeEntry_cons]
    by_cases he : e.1 = n
    · rw [if_pos he, List.map_cons]
      exact ih.cons e.1
    · rw [if_neg he, List.map_cons, List.map_cons]
      exact ih.cons₂ e.1

theorem keysNodup_removeEntry {α : Type} (d : Dir α) (n : String) (h : keysNodup d) :
    keysNodup (removeEntry d n) := by
  unfold keysNodup at h ⊢
  exact List.Nodup.sublist (keys_removeEntry_sublist d n) h

theorem insertEntry_insertEntry {α : Type} (d : Dir α) (n : String) (f g : FsFile α) :
    insertEntry (insertEntry d n f) n g = insertEntry d n g := by
  induction d with
  | nil => simp [insertEntry]
  | cons e es ih =>
    rw [insertEntry_cons]
    by_cases he : e.1 = n
    · rw [if_pos he, insertEntry_cons, if_pos rfl, insertEntry_cons, if_pos he]
    · rw [if_neg he, insertEntry_cons, if_neg he, insertEntry_cons, if_neg he, ih]
/-- The on-disk state of one queue: the four state directories plus the
`tmp` scratch directory (`AbstractFilesystemTaskQueue.directories`). -/
structure QueueState (α : Type) where
  waiting : Dir α
  in_progress : Dir α
  failed : Dir α
  completed : Dir α
  tmp : Dir α
deriving DecidableEq, Repr

/-- The directory holding tasks of a given state (`self.base_dir / task["state"]`). -/
def QueueState.dirs {α : Type} (s : QueueState α) : State → Dir α
  | .waiting => s.waiting
  | .in_progress => s.in_progress
  | .failed => s.failed
  | .completed => s.completed

/-- Replace the directory of a given state. -/
def setDir {α : Type} (s : QueueState α) : State → Dir α → QueueState α
  | .waiting, d => { s with waiting := d }
  | .in_progress, d => { s with in_progress := d }
  | .failed, d => { s with failed := d }
  | .completed, d => { s with completed := d }

/-- A location a file path can point at: a state directory or `tmp`. -/
inductive Loc where
  | state (st : State)
  | tmp
deriving DecidableEq, Repr

/-- Contents of the directory at a location. -/
def getLoc {α : Type} (s : QueueState α) : Loc → Dir α
  | .state st => s.dirs st
  | .tmp => s.tmp

/-- Replace the directory at a location. -/
def setLoc {α : Type} (s : QueueState α) : Loc → Dir α → QueueState α
  | .state st, d => setDir s st d
  | .tmp, d => { s with tmp := d }

/-- `os.rename(src / n, dst / n)`: atomically move a file between two
directories, silently replacing any file of the same name at the
destination and preserving the modification time.  A rename whose
source does not exist raises `FileNotFoundError`; every use below
either checks for that case explicitly (mirroring a `try/except`) or
is applied where the source provably exists, so the missing-source
case is modelled as a no-op here and ruled out at the call sites. -/
def moveEntry {α : Type} (s : QueueState α) (src dst : Loc) (n : String) : QueueState α :=
  match lookupEntry (getLoc s src) n with
  | none => s
  | some f =>
    let s1 := setLoc s src (removeEntry (getLoc s src) n)
    setLoc s1 dst (insertEntry (getLoc s1 dst) n f)

@[simp]
theorem dirs_setDir {α : Type} (s : QueueState α) (a b : State) (d : Dir α) :
    (setDir s a d).dirs b = if b = a then d else s.dirs b := by
  cases a <;> cases b <;> simp [setDir, QueueState.dirs]

@[simp]
theorem tmp_setDir {α : Type} (s : QueueState α) (a : State) (d : Dir α) :
    (setDir s a d).tmp = s.tmp := by
  cases a <;> rfl

@[simp]
theorem dirs_setTmp {α : Type} (s : QueueState α) (d : Dir α) (b : State) :
    ({ s with tmp := d } : QueueState α).dirs b = s.dirs b := by
  cases b <;> rfl

theorem getLoc_state {α : Type} (s : QueueState α) (st : State) :
    getLoc s (.state st) = s.dirs st := rfl

theorem getLoc_tmp {α : Type} (s : QueueState α) : getLoc s .tmp = s.tmp := rfl

theorem setLoc_state {α : Type} (s : QueueState α) (st : State) (d : Dir α) :
    setLoc s (.state st) d = setDir s st d := rfl

theorem setLoc_tmp {α : Type} (s : QueueState α) (d : Dir α) :
    setLoc s .tmp d = { s with tmp := d } := rfl

/-- Append an event and optionally replace the state field: the
in-place mutation performed at the top of `record_task_event`
(`task["state"] = state; task["events"].append(...)`). -/
def withEvent {α : Type} (task : Task α) (st : Option State) (now : Nat) (ev : String) :
    Task α :=
  { task with
    state := st.getD task.state,
    events := task.events ++ [{ time := now, description := ev }] }

/-- `read_task` (`fs_queue.py` lines 139-156): search the four state
directories in the fixed order waiting, in_progress, failed, completed
and return the first match; `None` models the `ValueError` raised when
the id is absent everywhere. -/
def read_task {α : Type} (s : QueueState α) (task_id : String) : Option (Task α) :=
  match lookupEntry s.waiting task_id with
  | some f => some f.content
  | none =>
    match lookupEntry s.in_progress task_id with
    | some f => some f.content
    | none =>
      match lookupEntry s.failed task_id with
      | some f => some f.content
      | none =>
        match lookupEntry s.completed task_id with
        | some f => some f.content
        | none => none

/-- The first step of `write_task`: `open(tmp_path, "x")` followed by
writing the serialised task, i.e. creating the scratch file. -/
def writeScratch {α : Type} (now : Nat) (s : QueueState α) (task : Task α) : QueueState α :=
  { s with tmp := insertEntry s.tmp task.id { content := task, mtime := now } }

/-- `write_task` (`fs_queue.py` lines 113-137).  `open(tmp_path, "x")`
raises `FileExistsError` when the scratch file already exists (modelled
as `none`, with no directory modified); otherwise the new content is
written to the scratch file, the prior copy is looked up with
`read_task`, and the file is renamed into place — via the prior state
directory when the state is changing. -/
def write_task {α : Type} (now : Nat) (s : QueueState α) (task : Task α) :
    Option (QueueState α) :=
  if (lookupEntry s.tmp task.id).isSome then none
  else
    let s1 := writeScratch now s task
    match read_task s1 task.id with
    | some prior =>
      if prior.state ≠ task.state then
        some (moveEntry (moveEntry s1 .tmp (.state prior.state) task.id)
          (.state prior.state) (.state task.state) task.id)
      else
        some (moveEntry s1 .tmp (.state task.state) task.id)
    | none => some (moveEntry s1 .tmp (.state task.state) task.id)

/-- `start_task` (`fs_queue.py` lines 158-177): build a fresh task in
state `waiting` with the single creation event and persist it.  The
generated `uuid.uuid4()` identifier and `datetime.datetime.now()` are
inputs of the model. -/
def start_task {α : Type} (now : Nat) (s : QueueState α) (task_id : String) (task_input : α) :
    Option (QueueState α) :=
  write_task now s
    { id := task_id,
      events := [{ time := now, description := "Task created" }],
      state := .waiting,
      data := task_input }

/-- `record_task_event` (`fs_queue.py` lines 179-185): mutate the task
record in place (state and appended event) and persist it.  The mutated
record is returned together with the new disk state because the caller
(`process_single_task`) keeps using the mutated dictionary. -/
def record_task_event {α : Type} (now : Nat) (s : QueueState α) (task : Task α)
    (st : Option State) (ev : String) : Option (Task α × QueueState α) :=
  let task2 := withEvent task st now ev
  (write_task now s task2).map (fun s2 => (task2, s2))

/-- Python `min(candidates, key=lambda fm: fm[1])`: the first element
of minimal modification time, in listing order. -/
def minByMtime : List (String × Nat) → Option (String × Nat)
  | [] => none
  | x :: xs =>
    match minByMtime xs with
    | none => some x
    | some y => if y.2 < x.2 then some y else some x

/-- `_next_available_task` (`fs_queue.py` lines 187-207): list the
waiting directory with each file's modification time and return the
name of the oldest file, `None` when the directory is empty. -/
def next_available_task {α : Type} (s : QueueState α) : Option String :=
  (minByMtime (s.waiting.map (fun e => (e.1, e.2.mtime)))).map (fun y => y.1)

/-- The claim half of `process_single_task` (`fs_queue.py` lines
209-239): pick the next available task, atomically rename it from
`waiting` to `in_progress` (a vanished source file is the caught
`FileNotFoundError`: another worker won the race and the call returns
with no task), then read the record back and persist it with state
`in_progress` and a "Task started" event.  The result pairs the new
disk state with the claimed (already rewritten) task, `none` on an
escaped exception from `write_task`. -/
def claim_phase {α : Type} (t1 : Nat) (s : QueueState α) :
    Option (QueueState α × Option (Task α)) :=
  match next_available_task s with
  | none => some (s, none)
  | some this_task_id =>
    match lookupEntry s.waiting this_task_id with
    | none => some (s, none)
    | some _ =>
      let s1 := moveEntry s (.state .waiting) (.state .in_progress) this_task_id
      match read_task s1 this_task_id with
      | none => none
      | some task =>
        match record_task_event t1 s1 task (some .in_progress) "Task started" with
        | none => none
        | some (task1, s2) => some (s2, some task1)

/-- `process_single_task` (`fs_queue.py` lines 209-256): claim the next
task; if none, sleep and return; otherwise run the caller-supplied
handler (`process_individual_task`) on the claimed record, record state
`failed` with the exception text when it raises, state `completed`
otherwise.  The handler is modelled as a pure outcome: `Except.error`
is a raised exception with its message.  `none` models an exception
escaping from `write_task` itself (never from the handler). -/
def process_single_task {α : Type} (handler : Task α → Except String Unit) (t1 t2 : Nat)
    (s : QueueState α) : Option (QueueState α) :=
  match claim_phase t1 s with
  | none => none
  | some (s1, none) => some s1
  | some (s1, some task1) =>
    match handler task1 with
    | .error exc =>
      (record_task_event t2 s1 task1 (some .failed)
        ("Task failed with an exception: " ++ exc)).map (fun r => r.2)
    | .ok _ =>
      (record_task_event t2 s1 task1 (some .completed)
        "Task completed without exception").map (fun r => r.2)
/-- The four lifecycle states, in the order `read_task` searches them. -/
def allStates : List State := [.waiting, .in_progress, .failed, .completed]

theorem mem_allStates (a : State) : a ∈ allStates := by
  cases a <;> simp [allStates]

/-- Well-formedness of a queue snapshot, as maintained by the queue
operations: directory listings repeat no name; every file's in-record
state names the directory holding it and its in-record id names the
file; and no id is live in two state directories at once. -/
def invB {α : Type} (s : QueueState α) : Bool :=
  (allStates.all fun a => decide (keysNodup (s.dirs a))) &&
  decide (keysNodup s.tmp) &&
  (allStates.all fun a => (s.dirs a).all fun e =>
    decide (e.2.content.state = a) && decide (e.2.content.id = e.1)) &&
  (allStates.all fun a => (s.dirs a).all fun e =>
    allStates.all fun b => decide (a = b) || (lookupEntry (s.dirs b) e.1).isNone)

theorem inv_nodup {α : Type} {s : QueueState α} (h : invB s = true) (a : State) :
    keysNodup (s.dirs a) := by
  unfold invB at h
  simp only [Bool.and_eq_true, List.all_eq_true] at h
  exact of_decide_eq_true (h.1.1.1 a (mem_allStates a))

theorem inv_nodup_tmp {α : Type} {s : QueueState α} (h : invB s = true) :
    keysNodup s.tmp := by
  unfold invB at h
  simp only [Bool.and_eq_true, List.all_eq_true] at h
  exact of_decide_eq_true h.1.1.2

theorem inv_agree {α : Type} {s : QueueState α} {a : State} {n : String} {f : FsFile α}
    (h : invB s = true) (hl : lookupEntry (s.dirs a) n = some f) :
    f.content.state = a ∧ f.content.id = n := by
  unfold invB at h
  simp only [Bool.and_eq_true, List.all_eq_true] at h
  have hm : (n, f) ∈ s.dirs a := mem_of_lookupEntry hl
  have := h.1.2 a (mem_allStates a) (n, f) hm
  simp only [Bool.and_eq_true, decide_eq_true_eq] at this
  exact this

theorem inv_disjoint {α : Type} {s : QueueState α} {a b : State} {n : String} {f : FsFile α}
    (h : invB s = true) (hl : lookupEntry (s.dirs a) n = some f) (hab : a ≠ b) :
    lookupEntry (s.dirs b) n = none := by
  unfold invB at h
  simp only [Bool.and_eq_true, List.all_eq_true] at h
  have hm : (n, f) ∈ s.dirs a := mem_of_lookupEntry hl
  have := h.2 a (mem_allStates a) (n, f) hm b (mem_allStates b)
  simp only [Bool.or_eq_true, decide_eq_true_eq] at this
  rcases this with this | this
  · exact absurd this hab
  · simpa [Option.isNone_iff_eq_none] using this

theorem inv_intro {α : Type} (s : QueueState α)
    (h1 : ∀ a, keysNodup (s.dirs a))
    (h2 : keysNodup s.tmp)
    (h3 : ∀ a n f, lookupEntry (s.dirs a) n = some f → f.content.state = a ∧ f.content.id = n)
    (h4 : ∀ a b n f, lookupEntry (s.dirs a) n = some f → a ≠ b →
      lookupEntry (s.dirs b) n = none) :
    invB s = true := by
  unfold invB
  simp only [Bool.and_eq_true, List.all_eq_true]
  refine ⟨⟨⟨?_, ?_⟩, ?_⟩, ?_⟩
  · intro a _
    exact decide_eq_true (h1 a)
  · exact decide_eq_true h2
  · intro a _ e he
    have hl : lookupEntry (s.dirs a) e.1 = some e.2 :=
      lookupEntry_eq_some_of_mem (h1 a) (by simpa using he)
    have := h3 a e.1 e.2 hl
    simp only [Bool.and_eq_true, decide_eq_true_eq]
    exact this
  · intro a _ e he b _
    have hl : lookupEntry (s.dirs a) e.1 = some e.2 :=
      lookupEntry_eq_some_of_mem (h1 a) (by simpa using he)
    simp only [Bool.or_eq_true, decide_eq_true_eq]
    by_cases hab : a = b
    · exact Or.inl hab
    · exact Or.inr (by simp [Option.isNone_iff_eq_none, h4 a b e.1 e.2 hl hab])
@[simp]
theorem dirs_waiting {α : Type} (s : QueueState α) : s.dirs .waiting = s.waiting := rfl

@[simp]
theorem dirs_in_progress {α : Type} (s : QueueState α) : s.dirs .in_progress = s.in_progress := rfl

@[simp]
theorem dirs_failed {α : Type} (s : QueueState α) : s.dirs .failed = s.failed := rfl

@[simp]
theorem dirs_completed {α : Type} (s : QueueState α) : s.dirs .completed = s.completed := rfl

theorem setDir_setDir_same {α : Type} (s : QueueState α) (a : State) (d1 d2 : Dir α) :
    setDir (setDir s a d1) a d2 = setDir s a d2 := by
  cases a <;> rfl

theorem removeEntry_removeEntry {α : Type} (d : Dir α) (n : String) :
    removeEntry (removeEntry d n) n = removeEntry d n :=
  removeEntry_of_lookup_none _ _ (lookupEntry_removeEntry_self d n)

@[simp]
theorem withEvent_id {α : Type} (t : Task α) (st : Option State) (now : Nat) (ev : String) :
    (withEvent t st now ev).id = t.id := rfl

@[simp]
theorem withEvent_data {α : Type} (t : Task α) (st : Option State) (now : Nat) (ev : String) :
    (withEvent t st now ev).data = t.data := rfl

@[simp]
theorem withEvent_state_some {α : Type} (t : Task α) (st : State) (now : Nat) (ev : String) :
    (withEvent t (some st) now ev).state = st := rfl

@[simp]
theorem withEvent_events {α : Type} (t : Task α) (st : Option State) (now : Nat) (ev : String) :
    (withEvent t st now ev).events = t.events ++ [{ time := now, description := ev }] := rfl

theorem moveEntry_of_lookup_none {α : Type} (s : QueueState α) (src dst : Loc) (n : String)
    (h : lookupEntry (getLoc s src) n = none) : moveEntry s src dst n = s := by
  unfold moveEntry
  rw [h]

theorem moveEntry_tmp_state {α : Type} (s : QueueState α) (b : State) (n : String)
    {f : FsFile α} (h : lookupEntry s.tmp n = some f) :
    moveEntry s .tmp (.state b) n =
      setDir { s with tmp := removeEntry s.tmp n } b (insertEntry (s.dirs b) n f) := by
  unfold moveEntry
  rw [getLoc_tmp, h]
  simp only [setLoc_state, setLoc_tmp, getLoc_state, getLoc_tmp, dirs_setTmp]

theorem moveEntry_state_state {α : Type} (s : QueueState α) {a b : State} (hab : a ≠ b)
    (n : String) {f : FsFile α} (h : lookupEntry (s.dirs a) n = some f) :
    moveEntry s (.state a) (.state b) n =
      setDir (setDir s a (removeEntry (s.dirs a) n)) b (insertEntry (s.dirs b) n f) := by
  unfold moveEntry
  rw [getLoc_state, h]
  simp only [setLoc_state, getLoc_state, dirs_setDir]
  rw [if_neg (fun hc => hab hc.symm)]

@[simp]
theorem read_task_writeScratch {α : Type} (now : Nat) (s : QueueState α) (t : Task α)
    (n : String) : read_task (writeScratch now s t) n = read_task s n := rfl

@[simp]
theorem tmp_writeScratch {α : Type} (now : Nat) (s : QueueState α) (t : Task α) :
    (writeScratch now s t).tmp = insertEntry s.tmp t.id { content := t, mtime := now } := rfl

@[simp]
theorem dirs_writeScratch {α : Type} (now : Nat) (s : QueueState α) (t : Task α) (b : State) :
    (writeScratch now s t).dirs b = s.dirs b := by
  cases b <;> rfl
theorem read_task_none_iff {α : Type} (s : QueueState α) (n : String) :
    read_task s n = none ↔
      lookupEntry s.waiting n = none ∧ lookupEntry s.in_progress n = none ∧
      lookupEntry s.failed n = none ∧ lookupEntry s.completed n = none := by
  unfold read_task
  cases hw : lookupEntry s.waiting n
  · cases hi : lookupEntry s.in_progress n
    · cases hf : lookupEntry s.failed n
      · cases hc : lookupEntry s.completed n
        · simp
        · simp
      · simp
    · simp
  · simp

theorem write_task_fresh {α : Type} (now : Nat) (s : QueueState α) (t : Task α)
    (htmp : lookupEntry s.tmp t.id = none)
    (hread : read_task s t.id = none) :
    write_task now s t =
      some (setDir s t.state
        (insertEntry (s.dirs t.state) t.id { content := t, mtime := now })) := by
  unfold write_task
  rw [htmp]
  simp only [Option.isSome_none, Bool.false_eq_true, if_false, read_task_writeScratch, hread]
  rw [moveEntry_tmp_state _ t.state t.id
    (show lookupEntry (writeScratch now s t).tmp t.id = some { content := t, mtime := now }
      from lookupEntry_insertEntry_self _ _ _)]
  rw [show (writeScratch now s t).tmp = insertEntry s.tmp t.id { content := t, mtime := now }
    from rfl]
  rw [removeEntry_insertEntry, removeEntry_of_lookup_none _ _ htmp]
  rfl

theorem write_task_same_state {α : Type} (now : Nat) (s : QueueState α) (t : Task α)
    {prior : Task α}
    (htmp : lookupEntry s.tmp t.id = none)
    (hread : read_task s t.id = some prior)
    (hst : prior.state = t.state) :
    write_task now s t =
      some (setDir s t.state
        (insertEntry (s.dirs t.state) t.id { content := t, mtime := now })) := by
  unfold write_task
  rw [htmp]
  simp only [Option.isSome_none, Bool.false_eq_true, if_false, read_task_writeScratch, hread]
  rw [if_neg (show ¬ prior.state ≠ t.state from fun hc => hc hst)]
  rw [moveEntry_tmp_state _ t.state t.id
    (show lookupEntry (writeScratch now s t).tmp t.id = some { content := t, mtime := now }
      from lookupEntry_insertEntry_self _ _ _)]
  rw [show (writeScratch now s t).tmp = insertEntry s.tmp t.id { content := t, mtime := now }
    from rfl]
  rw [removeEntry_insertEntry, removeEntry_of_lookup_none _ _ htmp]
  rfl

theorem write_task_state_change {α : Type} (now : Nat) (s : QueueState α) (t : Task α)
    {prior : Task α}
    (htmp : lookupEntry s.tmp t.id = none)
    (hread : read_task s t.id = some prior)
    (hst : prior.state ≠ t.state) :
    write_task now s t =
      some (setDir (setDir s prior.state (removeEntry (s.dirs prior.state) t.id))
        t.state (insertEntry (s.dirs t.state) t.id { content := t, mtime := now })) := by
  unfold write_task
  rw [htmp]
  simp only [Option.isSome_none, Bool.false_eq_true, if_false, read_task_writeScratch, hread]
  rw [if_pos hst]
  rw [moveEntry_tmp_state _ prior.state t.id
    (show lookupEntry (writeScratch now s t).tmp t.id = some { content := t, mtime := now }
      from lookupEntry_insertEntry_self _ _ _)]
  rw [show (writeScratch now s t).tmp = insertEntry s.tmp t.id { content := t, mtime := now }
    from rfl]
  rw [removeEntry_insertEntry, removeEntry_of_lookup_none _ _ htmp]
  have hcollapse :
      setDir { writeScratch now s t with tmp := s.tmp } prior.state
        (insertEntry ((writeScratch now s t).dirs prior.state) t.id
          { content := t, mtime := now }) =
      setDir s prior.state
        (insertEntry (s.dirs prior.state) t.id { content := t, mtime := now }) := rfl
  rw [hcollapse]
  rw [moveEntry_state_state _ hst t.id
    (show lookupEntry ((setDir s prior.state
        (insertEntry (s.dirs prior.state) t.id { content := t, mtime := now })).dirs prior.state)
        t.id = some { content := t, mtime := now } by
      rw [dirs_setDir, if_pos rfl]
      exact lookupEntry_insertEntry_self _ _ _)]
  rw [dirs_setDir, if_pos rfl, removeEntry_insertEntry]
  rw [dirs_setDir, if_neg (fun hc => hst hc.symm)]
  rw [setDir_setDir_same]
theorem inv_place {α : Type} {s : QueueState α} {q : State} {n : String} {g : FsFile α}
    (hinv : invB s = true)
    (hnone : ∀ b, lookupEntry (s.dirs b) n = none)
    (hid : g.content.id = n) (hst : g.content.state = q) :
    invB (setDir s q (insertEntry (s.dirs q) n g)) = true := by
  apply inv_intro
  · intro a
    rw [dirs_setDir]
    by_cases haq : a = q
    · rw [if_pos haq]
      exact keysNodup_insertEntry _ _ _ (inv_nodup hinv q)
    · rw [if_neg haq]
      exact inv_nodup hinv a
  · rw [tmp_setDir]
    exact inv_nodup_tmp hinv
  · intro a m f hl
    rw [dirs_setDir] at hl
    by_cases haq : a = q
    · rw [if_pos haq] at hl
      by_cases hmn : m = n
      · subst hmn
        rw [lookupEntry_insertEntry_self] at hl
        cases hl
        exact ⟨by rw [hst, haq], hid⟩
      · rw [lookupEntry_insertEntry_ne _ _ _ _ hmn] at hl
        subst haq
        exact inv_agree hinv hl
    · rw [if_neg haq] at hl
      exact inv_agree hinv hl
  · intro a b m f hl hab
    rw [dirs_setDir] at hl
    rw [dirs_setDir]
    by_cases hmn : m = n
    · subst hmn
      by_cases haq : a = q
      · rw [if_pos haq] at hl
        have hbq : ¬ b = q := fun hc => hab (haq.trans hc.symm)
        rw [if_neg hbq]
        exact hnone b
      · rw [if_neg haq, hnone a] at hl
        cases hl
    · by_cases haq : a = q
      · rw [if_pos haq] at hl
        rw [lookupEntry_insertEntry_ne _ _ _ _ hmn] at hl
        have hbq : ¬ b = q := fun hc => hab (haq.trans hc.symm)
        rw [if_neg hbq]
        exact inv_disjoint hinv (haq ▸ hl : lookupEntry (s.dirs a) m = some f) hab
      · rw [if_neg haq] at hl
        by_cases hbq : b = q
        · rw [if_pos hbq]
          rw [lookupEntry_insertEntry_ne _ _ _ _ hmn]
          exact inv_disjoint hinv hl haq
        · rw [if_neg hbq]
          exact inv_disjoint hinv hl hab

theorem inv_transition {α : Type} {s : QueueState α} {p q : State} (hpq : p ≠ q)
    {n : String} {g : FsFile α}
    (hinv : invB s = true)
    (honly : ∀ b, b ≠ p → lookupEntry (s.dirs b) n = none)
    (hid : g.content.id = n) (hst : g.content.state = q) :
    invB (setDir (setDir s p (removeEntry (s.dirs p) n)) q
      (insertEntry (s.dirs q) n g)) = true := by
  apply inv_intro
  · intro a
    simp only [dirs_setDir]
    by_cases haq : a = q
    · rw [if_pos haq]
      exact keysNodup_insertEntry _ _ _ (inv_nodup hinv q)
    · rw [if_neg haq]
      by_cases hap : a = p
      · rw [if_pos hap]
        exact keysNodup_removeEntry _ _ (inv_nodup hinv p)
      · rw [if_neg hap]
        exact inv_nodup hinv a
  · simp only [tmp_setDir]
    exact inv_nodup_tmp hinv
  · intro a m f hl
    simp only [dirs_setDir] at hl
    by_cases haq : a = q
    · rw [if_pos haq] at hl
      by_cases hmn : m = n
      · subst hmn
        rw [lookupEntry_insertEntry_self] at hl
        cases hl
        exact ⟨by rw [hst, haq], hid⟩
      · rw [lookupEntry_insertEntry_ne _ _ _ _ hmn] at hl
        subst haq
        exact inv_agree hinv hl
    · rw [if_neg haq] at hl
      by_cases hap : a = p
      · rw [if_pos hap] at hl
        by_cases hmn : m = n
        · subst hmn
          rw [lookupEntry_removeEntry_self] at hl
          cases hl
        · rw [lookupEntry_removeEntry_ne _ _ _ hmn] at hl
          subst hap
          exact inv_agree hinv hl
      · rw [if_neg hap] at hl
        exact inv_agree hinv hl
  · intro a b m f hl hab
    simp only [dirs_setDir] at hl
    simp only [dirs_setDir]
    by_cases hmn : m = n
    · subst hmn
      have ha : a = q := by
        by_contra haq
        rw [if_neg haq] at hl
        by_cases hap : a = p
        · rw [if_pos hap] at hl
          rw [lookupEntry_removeEntry_self] at hl
          cases hl
        · rw [if_neg hap, honly a hap] at hl
          cases hl
      have hbq : ¬ b = q := fun hc => hab (ha.trans hc.symm)
      rw [if_neg hbq]
      by_cases hbp : b = p
      · rw [if_pos hbp]
        rw [lookupEntry_removeEntry_self]
      · rw [if_neg hbp]
        exact honly b hbp
    · have hl2 : lookupEntry (s.dirs a) m = some f := by
        by_cases haq : a = q
        · rw [if_pos haq] at hl
          rw [lookupEntry_insertEntry_ne _ _ _ _ hmn] at hl
          rw [haq]
          exact hl
        · rw [if_neg haq] at hl
          by_cases hap : a = p
          · rw [if_pos hap] at hl
            rw [lookupEntry_removeEntry_ne _ _ _ hmn] at hl
            rw [hap]
            exact hl
          · rw [if_neg hap] at hl
            exact hl
      have hnone2 : lookupEntry (s.dirs b) m = none := inv_disjoint hinv hl2 hab
      by_cases hbq : b = q
      · rw [if_pos hbq]
        rw [lookupEntry_insertEntry_ne _ _ _ _ hmn]
        rw [← hbq]
        exact hnone2
      · rw [if_neg hbq]
        by_cases hbp : b = p
        · rw [if_pos hbp]
          rw [lookupEntry_removeEntry_ne _ _ _ hmn]
          rw [← hbp]
          exact hnone2
        · rw [if_neg hbp]
          exact hnone2
theorem minByMtime_ne_none (x : String × Nat) (xs : List (String × Nat)) :
    minByMtime (x :: xs) ≠ none := by
  unfold minByMtime
  cases minByMtime xs with
  | none => simp
  | some z =>
    by_cases hz : z.2 < x.2
    · simp [hz]
    · simp [hz]

theorem minByMtime_none {l : List (String × Nat)} (h : minByMtime l = none) : l = [] := by
  cases l with
  | nil => rfl
  | cons x xs => exact absurd h (minByMtime_ne_none x xs)

theorem minByMtime_mem {l : List (String × Nat)} {y : String × Nat}
    (h : minByMtime l = some y) : y ∈ l := by
  induction l with
  | nil => cases h
  | cons x xs ih =>
    unfold minByMtime at h
    cases hm : minByMtime xs with
    | none =>
      simp only [hm] at h
      cases h
      exact List.mem_cons_self _ _
    | some z =>
      simp only [hm] at h
      by_cases hz : z.2 < x.2
      · rw [if_pos hz] at h
        cases h
        exact List.mem_cons_of_mem _ (ih hm)
      · rw [if_neg hz] at h
        cases h
        exact List.mem_cons_self _ _

theorem minByMtime_min {l : List (String × Nat)} {y : String × Nat}
    (h : minByMtime l = some y) : ∀ z ∈ l, y.2 ≤ z.2 := by
  induction l generalizing y with
  | nil => cases h
  | cons x xs ih =>
    intro z hz
    unfold minByMtime at h
    rw [List.mem_cons] at hz
    cases hm : minByMtime xs with
    | none =>
      simp only [hm] at h
      cases h
      have hxs : xs = [] := minByMtime_none hm
      rcases hz with hz | hz
      · rw [hz]
      · rw [hxs] at hz
        simp at hz
    | some w =>
      simp only [hm] at h
      by_cases hw : w.2 < x.2
      · rw [if_pos hw] at h
        cases h
        rcases hz with hz | hz
        · rw [hz]
          exact le_of_lt hw
        · exact ih hm z hz
      · rw [if_neg hw] at h
        cases h
        rcases hz with hz | hz
        · rw [hz]
        · exact le_trans (le_of_not_lt hw) (ih hm z hz)

theorem next_available_some {α : Type} {s : QueueState α} {f : String}
    (hnd : keysNodup s.waiting) (h : next_available_task s = some f) :
    ∃ file, lookupEntry s.waiting f = some file ∧
      ∀ e ∈ s.waiting, file.mtime ≤ e.2.mtime := by
  unfold next_available_task at h
  cases hm : minByMtime (s.waiting.map (fun e => (e.1, e.2.mtime))) with
  | none => rw [hm] at h; cases h
  | some y =>
    rw [hm] at h
    have hf : y.1 = f := by simpa using h
    have hy := minByMtime_mem hm
    rw [List.mem_map] at hy
    obtain ⟨e, he, hey⟩ := hy
    refine ⟨e.2, ?_, ?_⟩
    · have hmem : (e.1, e.2) ∈ s.waiting := by simpa using he
      have hl := lookupEntry_eq_some_of_mem hnd hmem
      have he1 : e.1 = f := by rw [← hf, ← hey]
      rw [he1] at hl
      exact hl
    · intro e2 he2
      have hme : (e2.1, e2.2.mtime) ∈ s.waiting.map (fun e => (e.1, e.2.mtime)) :=
        List.mem_map_of_mem _ he2
      have hmin := minByMtime_min hm _ hme
      have hy2 : e.2.mtime = y.2 := by rw [← hey]
      rw [← hy2] at hmin
      exact hmin

theorem next_available_none {α : Type} {s : QueueState α}
    (h : next_available_task s = none) : s.waiting = [] := by
  unfold next_available_task at h
  cases hm : minByMtime (s.waiting.map (fun e => (e.1, e.2.mtime))) with
  | none =>
    have hempty := minByMtime_none hm
    cases hw : s.waiting with
    | nil => rfl
    | cons x xs =>
      rw [hw] at hempty
      cases hempty
  | some y => rw [hm] at h; cases h
theorem claim_phase_unfold {α : Type} {s : QueueState α} {f : String} {file : FsFile α}
    (t1 : Nat)
    (hna : next_available_task s = some f)
    (hw : lookupEntry s.waiting f = some file) :
    claim_phase t1 s =
      match record_task_event t1
          { s with waiting := removeEntry s.waiting f,
                   in_progress := insertEntry s.in_progress f file }
          file.content (some .in_progress) "Task started" with
      | none => none
      | some (task1, s2) => some (s2, some task1) := by
  unfold claim_phase
  simp only [hna, hw]
  have hmove : moveEntry s (.state .waiting) (.state .in_progress) f =
      { s with waiting := removeEntry s.waiting f,
               in_progress := insertEntry s.in_progress f file } := by
    rw [moveEntry_state_state s (by decide) f
      (show lookupEntry (s.dirs .waiting) f = some file from hw)]
    rfl
  rw [hmove]
  have hread : read_task
      { s with waiting := removeEntry s.waiting f,
               in_progress := insertEntry s.in_progress f file } f = some file.content := by
    unfold read_task
    simp
  rw [hread]

theorem claim_spec {α : Type} {s : QueueState α} {f : String} {file : FsFile α} (t1 : Nat)
    (hinv : invB s = true)
    (hna : next_available_task s = some f)
    (hw : lookupEntry s.waiting f = some file)
    (htmp : lookupEntry s.tmp f = none) :
    claim_phase t1 s = some
      ({ s with
          waiting := removeEntry s.waiting f,
          in_progress := insertEntry s.in_progress f
            { content := withEvent file.content (some .in_progress) t1 "Task started",
              mtime := t1 } },
        some (withEvent file.content (some .in_progress) t1 "Task started")) := by
  obtain ⟨hstate, hid⟩ :=
    inv_agree hinv (show lookupEntry (s.dirs .waiting) f = some file from hw)
  rw [claim_phase_unfold t1 hna hw]
  have htmp1 : lookupEntry
      ({ s with waiting := removeEntry s.waiting f,
                in_progress := insertEntry s.in_progress f file } : QueueState α).tmp
      (withEvent file.content (some .in_progress) t1 "Task started").id = none := by
    rw [withEvent_id, hid]
    exact htmp
  have hread1 : read_task
      { s with waiting := removeEntry s.waiting f,
               in_progress := insertEntry s.in_progress f file }
      (withEvent file.content (some .in_progress) t1 "Task started").id =
      some file.content := by
    rw [withEvent_id, hid]
    unfold read_task
    simp
  have hst1 : file.content.state ≠
      (withEvent file.content (some .in_progress) t1 "Task started").state := by
    rw [withEvent_state_some, hstate]
    decide
  have hrec : record_task_event t1
      { s with waiting := removeEntry s.waiting f,
               in_progress := insertEntry s.in_progress f file }
      file.content (some .in_progress) "Task started" =
      some (withEvent file.content (some .in_progress) t1 "Task started",
        { s with
            waiting := removeEntry s.waiting f,
            in_progress := insertEntry s.in_progress f
              { content := withEvent file.content (some .in_progress) t1 "Task started",
                mtime := t1 } }) := by
    simp only [record_task_event]
    rw [write_task_state_change t1 _ _ htmp1 hread1 hst1]
    rw [hstate]
    simp only [Option.map_some, withEvent_state_some, withEvent_id, hid, dirs_waiting,
      dirs_in_progress, removeEntry_removeEntry, insertEntry_insertEntry]
    rfl
  rw [hrec]

theorem claim_blocked {α : Type} {s : QueueState α} {f : String} {file : FsFile α} (t1 : Nat)
    (hna : next_available_task s = some f)
    (hw : lookupEntry s.waiting f = some file)
    (htmp : (lookupEntry s.tmp file.content.id).isSome = true) :
    claim_phase t1 s = none := by
  rw [claim_phase_unfold t1 hna hw]
  have hcond : (lookupEntry
      ({ s with waiting := removeEntry s.waiting f,
                in_progress := insertEntry s.in_progress f file } : QueueState α).tmp
      (withEvent file.content (some .in_progress) t1 "Task started").id).isSome = true := by
    rw [withEvent_id]
    exact htmp
  simp only [record_task_event, write_task]
  rw [if_pos hcond]
  rfl
theorem claim_cases {α : Type} {s : QueueState α} {t1 : Nat} {s2 : QueueState α}
    {r : Option (Task α)}
    (hinv : invB s = true)
    (h : claim_phase t1 s = some (s2, r)) :
    (s2 = s ∧ r = none) ∨
    (∃ f file, next_available_task s = some f ∧ lookupEntry s.waiting f = some file ∧
      lookupEntry s.tmp f = none ∧
      r = some (withEvent file.content (some .in_progress) t1 "Task started") ∧
      s2 = { s with
        waiting := removeEntry s.waiting f,
        in_progress := insertEntry s.in_progress f
          { content := withEvent file.content (some .in_progress) t1 "Task started",
            mtime := t1 } }) := by
  cases hna : next_available_task s with
  | none =>
    left
    unfold claim_phase at h
    simp only [hna] at h
    have h2 := Option.some.inj h
    exact ⟨(congrArg Prod.fst h2).symm, (congrArg Prod.snd h2).symm⟩
  | some f =>
    cases hw : lookupEntry s.waiting f with
    | none =>
      left
      unfold claim_phase at h
      simp only [hna, hw] at h
      have h2 := Option.some.inj h
      exact ⟨(congrArg Prod.fst h2).symm, (congrArg Prod.snd h2).symm⟩
    | some file =>
      cases htmp : lookupEntry s.tmp f with
      | some g =>
        have hid : file.content.id = f :=
          (inv_agree hinv
            (show lookupEntry (s.dirs .waiting) f = some file from hw)).2
        have hblock : claim_phase t1 s = none :=
          claim_blocked t1 hna hw (by rw [hid, htmp]; rfl)
        rw [hblock] at h
        cases h
      | none =>
        right
        refine ⟨f, file, rfl, hw, htmp, ?_, ?_⟩
        all_goals {
          have hcs := claim_spec t1 hinv hna hw htmp
          rw [hcs] at h
          have h2 := Option.some.inj h
          first
          | exact (congrArg Prod.snd h2).symm
          | exact (congrArg Prod.fst h2).symm
        }

theorem inv_after_claim {α : Type} {s : QueueState α} {f : String} {file : FsFile α}
    (t1 : Nat)
    (hinv : invB s = true)
    (hw : lookupEntry s.waiting f = some file)
    :
    invB ({ s with
      waiting := removeEntry s.waiting f,
      in_progress := insertEntry s.in_progress f
        { content := withEvent file.content (some .in_progress) t1 "Task started",
          mtime := t1 } } : QueueState α) = true := by
  obtain ⟨hstate, hid⟩ :=
    inv_agree hinv (show lookupEntry (s.dirs .waiting) f = some file from hw)
  have honly : ∀ b, b ≠ State.waiting → lookupEntry (s.dirs b) f = none := by
    intro b hb
    exact inv_disjoint hinv
      (show lookupEntry (s.dirs .waiting) f = some file from hw) (fun hc => hb hc.symm)
  exact inv_transition (by decide : State.waiting ≠ State.in_progress) hinv honly
    (by rw [withEvent_id, hid])
    (by rw [withEvent_state_some])
theorem outcome_spec {α : Type} {s : QueueState α} {f : String} {file : FsFile α}
    (t1 t2 : Nat) (st2 : State) (ev : String)
    (hinv : invB s = true)
    (hw : lookupEntry s.waiting f = some file)
    (htmp : lookupEntry s.tmp f = none)
    (hst2 : st2 = State.failed ∨ st2 = State.completed) :
    record_task_event t2
      ({ s with
        waiting := removeEntry s.waiting f,
        in_progress := insertEntry s.in_progress f
          { content := withEvent file.content (some .in_progress) t1 "Task started",
            mtime := t1 } } : QueueState α)
      (withEvent file.content (some .in_progress) t1 "Task started") (some st2) ev =
    some (withEvent (withEvent file.content (some .in_progress) t1 "Task started")
        (some st2) t2 ev,
      setDir ({ s with
          waiting := removeEntry s.waiting f,
          in_progress := removeEntry s.in_progress f } : QueueState α) st2
        (insertEntry (s.dirs st2) f
          { content := withEvent (withEvent file.content (some .in_progress) t1
              "Task started") (some st2) t2 ev,
            mtime := t2 })) := by
  obtain ⟨hstate, hid⟩ :=
    inv_agree hinv (show lookupEntry (s.dirs .waiting) f = some file from hw)
  have htmp2 : lookupEntry
      ({ s with
        waiting := removeEntry s.waiting f,
        in_progress := insertEntry s.in_progress f
          { content := withEvent file.content (some .in_progress) t1 "Task started",
            mtime := t1 } } : QueueState α).tmp
      (withEvent (withEvent file.content (some .in_progress) t1 "Task started")
        (some st2) t2 ev).id = none := by
    rw [withEvent_id, withEvent_id, hid]
    exact htmp
  have hread2 : read_task
      ({ s with
        waiting := removeEntry s.waiting f,
        in_progress := insertEntry s.in_progress f
          { content := withEvent file.content (some .in_progress) t1 "Task started",
            mtime := t1 } } : QueueState α)
      (withEvent (withEvent file.content (some .in_progress) t1 "Task started")
        (some st2) t2 ev).id =
      some (withEvent file.content (some .in_progress) t1 "Task started") := by
    rw [withEvent_id, withEvent_id, hid]
    unfold read_task
    simp
  have hst : (withEvent file.content (some .in_progress) t1 "Task started").state ≠
      (withEvent (withEvent file.content (some .in_progress) t1 "Task started")
        (some st2) t2 ev).state := by
    rw [withEvent_state_some, withEvent_state_some]
    rcases hst2 with h | h <;> rw [h] <;> decide
  simp only [record_task_event]
  rw [write_task_state_change t2 _ _ htmp2 hread2 hst]
  simp only [Option.map_some, withEvent_state_some, withEvent_id, hid, dirs_in_progress,
    removeEntry_insertEntry]
  have hdirs : ∀ b : State, b = State.failed ∨ b = State.completed →
      ({ s with
        waiting := removeEntry s.waiting f,
        in_progress := insertEntry s.in_progress f
          { content := withEvent file.content (some .in_progress) t1 "Task started",
            mtime := t1 } } : QueueState α).dirs b = s.dirs b := by
    intro b hb
    rcases hb with hb | hb <;> rw [hb] <;> rfl
  rw [hdirs st2 hst2]
  rfl
theorem process_spec_error {α : Type} {s : QueueState α} {f : String} {file : FsFile α}
    (handler : Task α → Except String Unit) (t1 t2 : Nat) {msg : String}
    (hinv : invB s = true)
    (hna : next_available_task s = some f)
    (hw : lookupEntry s.waiting f = some file)
    (htmp : lookupEntry s.tmp f = none)
    (hh : handler (withEvent file.content (some .in_progress) t1 "Task started") =
      .error msg) :
    process_single_task handler t1 t2 s =
      some { s with
        waiting := removeEntry s.waiting f,
        in_progress := removeEntry s.in_progress f,
        failed := insertEntry s.failed f
          { content := withEvent (withEvent file.content (some .in_progress) t1
              "Task started") (some .failed) t2
              ("Task failed with an exception: " ++ msg),
            mtime := t2 } } := by
  unfold process_single_task
  rw [claim_spec t1 hinv hna hw htmp]
  simp only [hh]
  rw [outcome_spec t1 t2 .failed _ hinv hw htmp (Or.inl rfl)]
  rfl

theorem process_spec_ok {α : Type} {s : QueueState α} {f : String} {file : FsFile α}
    (handler : Task α → Except String Unit) (t1 t2 : Nat)
    (hinv : invB s = true)
    (hna : next_available_task s = some f)
    (hw : lookupEntry s.waiting f = some file)
    (htmp : lookupEntry s.tmp f = none)
    (hh : handler (withEvent file.content (some .in_progress) t1 "Task started") =
      .ok ()) :
    process_single_task handler t1 t2 s =
      some { s with
        waiting := removeEntry s.waiting f,
        in_progress := removeEntry s.in_progress f,
        completed := insertEntry s.completed f
          { content := withEvent (withEvent file.content (some .in_progress) t1
              "Task started") (some .completed) t2
              "Task completed without exception",
            mtime := t2 } } := by
  unfold process_single_task
  rw [claim_spec t1 hinv hna hw htmp]
  simp only [hh]
  rw [outcome_spec t1 t2 .completed _ hinv hw htmp (Or.inr rfl)]
  rfl

theorem inv_after_outcome {α : Type} {s : QueueState α} {f : String} {file : FsFile α}
    {t1 t2 : Nat} {st2 : State} {ev : String}
    (hinv : invB s = true)
    (hw : lookupEntry s.waiting f = some file)
    (hst2 : st2 = State.failed ∨ st2 = State.completed) :
    invB (setDir ({ s with
        waiting := removeEntry s.waiting f,
        in_progress := removeEntry s.in_progress f } : QueueState α) st2
      (insertEntry (s.dirs st2) f
        { content := withEvent (withEvent file.content (some .in_progress) t1
            "Task started") (some st2) t2 ev,
          mtime := t2 })) = true := by
  obtain ⟨hstate, hid⟩ :=
    inv_agree hinv (show lookupEntry (s.dirs .waiting) f = some file from hw)
  have hni : lookupEntry (s.dirs .in_progress) f = none :=
    inv_disjoint hinv (show lookupEntry (s.dirs .waiting) f = some file from hw)
      (by decide)
  rw [removeEntry_of_lookup_none s.in_progress f hni]
  have hpq : State.waiting ≠ st2 := by
    rcases hst2 with h | h <;> rw [h] <;> decide
  have honly : ∀ b, b ≠ State.waiting → lookupEntry (s.dirs b) f = none := by
    intro b hb
    exact inv_disjoint hinv
      (show lookupEntry (s.dirs .waiting) f = some file from hw) (fun hc => hb hc.symm)
  exact inv_transition hpq hinv honly
    (by rw [withEvent_id, withEvent_id, hid])
    (by rw [withEvent_state_some])

theorem process_inv {α : Type} {handler : Task α → Except String Unit} {t1 t2 : Nat}
    {s s2 : QueueState α}
    (hinv : invB s = true)
    (h : process_single_task handler t1 t2 s = some s2) :
    invB s2 = true := by
  cases hc : claim_phase t1 s with
  | none =>
    unfold process_single_task at h
    rw [hc] at h
    cases h
  | some pr =>
    obtain ⟨s1, r⟩ := pr
    rcases claim_cases hinv hc with ⟨hs1, hr⟩ | ⟨f, file, hna, hw, htmp, hr, hs1⟩
    · unfold process_single_task at h
      rw [hc] at h
      subst hr
      have h2 : s1 = s2 := Option.some.inj h
      rw [← h2, hs1]
      exact hinv
    · cases hh : handler (withEvent file.content (some .in_progress) t1 "Task started") with
      | error msg =>
        have hps := process_spec_error handler t1 t2 hinv hna hw htmp hh
        rw [hps] at h
        have h2 := Option.some.inj h
        rw [← h2]
        exact @inv_after_outcome α s f file t1 t2 State.failed
          ("Task failed with an exception: " ++ msg) hinv hw (Or.inl rfl)
      | ok u =>
        cases u
        have hps := process_spec_ok handler t1 t2 hinv hna hw htmp hh
        rw [hps] at h
        have h2 := Option.some.inj h
        rw [← h2]
        exact @inv_after_outcome α s f file t1 t2 State.completed
          "Task completed without exception" hinv hw (Or.inr rfl)

/-- The empty store, as laid out by `__init__` / `os.makedirs`. -/
def emptyQueue (α : Type) : QueueState α :=
  { waiting := [], in_progress := [], failed := [], completed := [], tmp := [] }

/-- Disk states reachable through completed queue operations, starting
from a fresh store: `start_task` with a fresh uuid (`uuid.uuid4()` is
assumed unique, so the generated id is not already a task on disk), the
claim half of `process_single_task` (shared with the worker loop), and
a full `process_single_task` iteration with an arbitrary handler.  Each
edge requires the operation to complete without an escaped exception. -/
inductive Reachable {α : Type} : QueueState α → Prop where
  | init : Reachable (emptyQueue α)
  | enqueue {s s2 : QueueState α} {id : String} {now : Nat} {p : α} :
      Reachable s → read_task s id = none → start_task now s id p = some s2 →
      Reachable s2
  | claim {s s2 : QueueState α} {t1 : Nat} {r : Option (Task α)} :
      Reachable s → claim_phase t1 s = some (s2, r) → Reachable s2
  | process {s s2 : QueueState α} (handler : Task α → Except String Unit) {t1 t2 : Nat} :
      Reachable s → process_single_task handler t1 t2 s = some s2 → Reachable s2

theorem reachable_inv {α : Type} {s : QueueState α} (h : Reachable s) : invB s = true := by
  induction h with
  | init => rfl
  | enqueue hre hfresh hs ih =>
    rename_i s s2 id now p
    have htmp : lookupEntry s.tmp id = none := by
      cases hl : lookupEntry s.tmp id with
      | none => rfl
      | some g => simp [start_task, write_task, hl] at hs
    unfold start_task at hs
    rw [write_task_fresh now s _ htmp hfresh] at hs
    have h2 := Option.some.inj hs
    rw [← h2]
    have hnone : ∀ b, lookupEntry (s.dirs b) id = none := by
      obtain ⟨h1, h2, h3, h4⟩ := (read_task_none_iff s id).mp hfresh
      intro b
      cases b
      · exact h1
      · exact h2
      · exact h3
      · exact h4
    exact inv_place ih hnone rfl rfl
  | claim hre hc ih =>
    rcases claim_cases ih hc with ⟨hs1, _⟩ | ⟨f, file, hna, hw, htmp, hr, hs1⟩
    · rw [hs1]
      exact ih
    · rw [hs1]
      exact inv_after_claim _ ih hw
  | process handler hre hp ih => exact process_inv ih hp
theorem read_task_some {α : Type} {s : QueueState α} {n : String} {c : Task α}
    (h : read_task s n = some c) :
    ∃ a f, lookupEntry (s.dirs a) n = some f ∧ f.content = c := by
  unfold read_task at h
  cases hw : lookupEntry s.waiting n with
  | some f =>
    rw [hw] at h
    exact ⟨.waiting, f, hw, Option.some.inj h⟩
  | none =>
    rw [hw] at h
    cases hi : lookupEntry s.in_progress n with
    | some f =>
      rw [hi] at h
      exact ⟨.in_progress, f, hi, Option.some.inj h⟩
    | none =>
      rw [hi] at h
      cases hf : lookupEntry s.failed n with
      | some f =>
        rw [hf] at h
        exact ⟨.failed, f, hf, Option.some.inj h⟩
      | none =>
        rw [hf] at h
        cases hc : lookupEntry s.completed n with
        | some f =>
          rw [hc] at h
          exact ⟨.completed, f, hc, Option.some.inj h⟩
        | none =>
          rw [hc] at h
          cases h

theorem read_task_of_unique {α : Type} {s : QueueState α} {n : String} {a : State}
    {f : FsFile α} (h : lookupEntry (s.dirs a) n = some f)
    (hn : ∀ b, b ≠ a → lookupEntry (s.dirs b) n = none) :
    read_task s n = some f.content := by
  cases a with
  | waiting =>
    have h1 : lookupEntry s.waiting n = some f := h
    unfold read_task
    rw [h1]
  | in_progress =>
    have h0 : lookupEntry s.waiting n = none := hn .waiting (by decide)
    have h1 : lookupEntry s.in_progress n = some f := h
    unfold read_task
    rw [h0, h1]
  | failed =>
    have h0 : lookupEntry s.waiting n = none := hn .waiting (by decide)
    have h1 : lookupEntry s.in_progress n = none := hn .in_progress (by decide)
    have h2 : lookupEntry s.failed n = some f := h
    unfold read_task
    rw [h0, h1, h2]
  | completed =>
    have h0 : lookupEntry s.waiting n = none := hn .waiting (by decide)
    have h1 : lookupEntry s.in_progress n = none := hn .in_progress (by decide)
    have h2 : lookupEntry s.failed n = none := hn .failed (by decide)
    have h3 : lookupEntry s.completed n = some f := h
    unfold read_task
    rw [h0, h1, h2, h3]
def taskA : Task Nat :=
  { id := "a", events := [{ time := 0, description := "Task created" }],
    state := .waiting, data := 5 }

def fileA : FsFile Nat := { content := taskA, mtime := 0 }

/-- The store after one `start_task` on a fresh store: task "a" waiting. -/
def exQueue1 : QueueState Nat :=
  { waiting := [("a", fileA)], in_progress := [], failed := [], completed := [], tmp := [] }

theorem exQueue1_reachable : Reachable exQueue1 :=
  @Reachable.enqueue Nat (emptyQueue Nat) exQueue1 "a" 0 5 Reachable.init (by decide)
    (by decide)

def taskT : Task Nat :=
  { id := "t", events := [{ time := 0, description := "Task created" }],
    state := .waiting, data := 0 }

def fileT : FsFile Nat := { content := taskT, mtime := 0 }

/-- A store whose only file sits in `in_progress` while its in-record
state field still says `waiting`: the on-disk situation directly after
the claim rename of `process_single_task` and before the record is
rewritten (e.g. a crash between `fs_queue.py` lines 225 and 239). -/
def mismatchQueue : QueueState Nat :=
  { waiting := [], in_progress := [("t", fileT)], failed := [], completed := [],
    tmp := [] }

/-- C1.  For every task ID, after every completed queue operation
(enqueue, claim, record-outcome and the writes and reads they contain),
at most one of the four state directories contains a file for that ID:
in any reachable snapshot, a directory holding the ID forces every
other state directory to miss it. -/
theorem claim1_unique_location {α : Type} (s : QueueState α) (h : Reachable s)
    (n : String) (a b : State) (hab : a ≠ b)
    (ha : lookupEntry (s.dirs a) n ≠ none) :
    lookupEntry (s.dirs b) n = none := by
  cases hl : lookupEntry (s.dirs a) n with
  | none => exact absurd hl ha
  | some g => exact inv_disjoint (reachable_inv h) hl hab

theorem claim1_witness : lookupEntry (exQueue1.dirs .in_progress) "a" = none :=
  claim1_unique_location exQueue1 exQueue1_reachable "a" .waiting .in_progress
    (by decide) (by decide)

/-- C7.  `read_task` searches the four state directories in the fixed
order waiting, in_progress, failed, completed and returns the first
match, deserialized; it fails (the `ValueError`, modelled as `none`) if
and only if the ID is absent from all four state directories. -/
theorem claim7_read_order {α : Type} (s : QueueState α) (id : String) :
    (∀ f, lookupEntry s.waiting id = some f → read_task s id = some f.content) ∧
    (lookupEntry s.waiting id = none → ∀ f, lookupEntry s.in_progress id = some f →
      read_task s id = some f.content) ∧
    (lookupEntry s.waiting id = none → lookupEntry s.in_progress id = none →
      ∀ f, lookupEntry s.failed id = some f → read_task s id = some f.content) ∧
    (lookupEntry s.waiting id = none → lookupEntry s.in_progress id = none →
      lookupEntry s.failed id = none → ∀ f, lookupEntry s.completed id = some f →
      read_task s id = some f.content) ∧
    (read_task s id = none ↔
      lookupEntry s.waiting id = none ∧ lookupEntry s.in_progress id = none ∧
      lookupEntry s.failed id = none ∧ lookupEntry s.completed id = none) := by
  refine ⟨?_, ?_, ?_, ?_, read_task_none_iff s id⟩
  · intro f hf
    unfold read_task
    rw [hf]
  · intro h0 f hf
    unfold read_task
    rw [h0, hf]
  · intro h0 h1 f hf
    unfold read_task
    rw [h0, h1, hf]
  · intro h0 h1 h2 f hf
    unfold read_task
    rw [h0, h1, h2, hf]

theorem claim7_witness :
    read_task exQueue1 "a" = some taskA ∧
    read_task mismatchQueue "t" = some taskT ∧
    read_task (emptyQueue Nat) "z" = none :=
  ⟨(claim7_read_order exQueue1 "a").1 fileA (by decide),
   (claim7_read_order mismatchQueue "t").2.1 (by decide) fileT (by decide),
   ((claim7_read_order (emptyQueue Nat) "z").2.2.2.2).mpr
     ⟨by decide, by decide, by decide, by decide⟩⟩
/-- C8.  For every payload, a successful `start_task` with a fresh
identifier is immediately readable: `read_task` of the returned id
succeeds and yields a task in state `waiting` whose events list is
exactly the single creation event and whose data is the supplied
payload. -/
theorem claim8_enqueue_read {α : Type} (now : Nat) (s s2 : QueueState α) (id : String)
    (p : α)
    (hfresh : read_task s id = none)
    (hs : start_task now s id p = some s2) :
    ∃ t, read_task s2 id = some t ∧ t.state = State.waiting ∧
      t.events = [{ time := now, description := "Task created" }] ∧
      t.events.length = 1 ∧ t.data = p ∧ t.id = id := by
  have htmp : lookupEntry s.tmp id = none := by
    cases hl : lookupEntry s.tmp id with
    | none => rfl
    | some g => simp [start_task, write_task, hl] at hs
  unfold start_task at hs
  rw [write_task_fresh now s _ htmp hfresh] at hs
  have h2 := Option.some.inj hs
  have hgoal : read_task s2 id = some
      { id := id, events := [{ time := now, description := "Task created" }],
        state := State.waiting, data := p } := by
    rw [← h2]
    unfold read_task
    rw [show (setDir s State.waiting
        (insertEntry (s.dirs State.waiting) id
          { content :=
              { id := id,
                events := [{ time := now, description := "Task created" }],
                state := .waiting,
                data := p },
            mtime := now })).waiting =
        insertEntry s.waiting id
          { content :=
              { id := id,
                events := [{ time := now, description := "Task created" }],
                state := .waiting,
                data := p },
            mtime := now } from rfl]
    rw [lookupEntry_insertEntry_self]
  exact ⟨_, hgoal, rfl, rfl, rfl, rfl, rfl⟩

theorem claim8_witness :
    ∃ t, read_task exQueue1 "a" = some t ∧ t.state = State.waiting ∧
      t.events = [{ time := 0, description := "Task created" }] ∧
      t.events.length = 1 ∧ t.data = 5 ∧ t.id = "a" :=
  claim8_enqueue_read 0 (emptyQueue Nat) exQueue1 "a" 5 (by decide) (by decide)

/-- A store with a stale scratch file left in `tmp` under the name "a"
(what a crash between the scratch write and the rename leaves behind). -/
def tmpBlockedQueue : QueueState Nat :=
  { waiting := [], in_progress := [], failed := [], completed := [],
    tmp := [("a", fileA)] }

/-- C10.  When a leftover scratch file with a task's name already
exists in `tmp`, every write of that task fails: `open(tmp_path, "x")`
raises `FileExistsError` before any state directory is modified
(modelled as the operation returning `none` and producing no new
state), so the persisted record and its state transition never happen.
This hits `write_task` itself, `start_task` persisting a colliding id,
and every `record_task_event` (the claim's started-event rewrite and
the completed/failed outcome writes). -/
theorem claim10_tmp_blocks_write {α : Type} (now : Nat) (s : QueueState α) (t : Task α)
    (id : String) (p : α) (st : Option State) (ev : String)
    (htmp : (lookupEntry s.tmp t.id).isSome = true)
    (htmp2 : (lookupEntry s.tmp id).isSome = true) :
    write_task now s t = none ∧
    start_task now s id p = none ∧
    record_task_event now s t st ev = none := by
  refine ⟨?_, ?_, ?_⟩
  · unfold write_task
    rw [if_pos htmp]
  · unfold start_task write_task
    rw [if_pos htmp2]
  · simp only [record_task_event, write_task, withEvent_id]
    rw [if_pos htmp]
    rfl

theorem claim10_witness :
    write_task 3 tmpBlockedQueue taskA = none ∧
    start_task 3 tmpBlockedQueue "a" 7 = none ∧
    record_task_event 3 tmpBlockedQueue taskA (some .failed) "event" = none :=
  claim10_tmp_blocks_write 3 tmpBlockedQueue taskA "a" 7 (some .failed) "event"
    (by decide) (by decide)
/-- C2.  During a state-changing update of an existing task,
`write_task` performs exactly three filesystem steps (write the scratch
file; rename it onto the prior live path; rename that into the target
directory), and after every prefix of those steps — i.e. at every
crash point — `read_task` of the id succeeds and returns either the
pre-transition record or the post-transition record, and no two state
directories hold the id at once (so the only possible extra copy is
the scratch file in `tmp`). -/
theorem claim2_crash_steps {α : Type} (now : Nat) (s : QueueState α) (t prior : Task α)
    (hinv : invB s = true)
    (htmp : lookupEntry s.tmp t.id = none)
    (hread : read_task s t.id = some prior)
    (hst : prior.state ≠ t.state) :
    write_task now s t =
      some (moveEntry (moveEntry (writeScratch now s t) .tmp (.state prior.state) t.id)
        (.state prior.state) (.state t.state) t.id) ∧
    (∀ s3 ∈ [writeScratch now s t,
        moveEntry (writeScratch now s t) .tmp (.state prior.state) t.id,
        moveEntry (moveEntry (writeScratch now s t) .tmp (.state prior.state) t.id)
          (.state prior.state) (.state t.state) t.id],
      (read_task s3 t.id = some prior ∨ read_task s3 t.id = some t) ∧
      ∀ a b : State, a ≠ b → lookupEntry (s3.dirs a) t.id ≠ none →
        lookupEntry (s3.dirs b) t.id = none) := by
  obtain ⟨a0, g, hga, hgc⟩ := read_task_some hread
  obtain ⟨hgstate, hgid⟩ := inv_agree hinv hga
  have ha0 : a0 = prior.state := by rw [← hgstate, hgc]
  subst ha0
  have honly : ∀ b, b ≠ prior.state → lookupEntry (s.dirs b) t.id = none :=
    fun b hb => inv_disjoint hinv hga (fun hc => hb hc.symm)
  have hlook1 : lookupEntry (writeScratch now s t).tmp t.id =
      some { content := t, mtime := now } := lookupEntry_insertEntry_self _ _ _
  have hmid_dirs : ∀ b, (moveEntry (writeScratch now s t) .tmp (.state prior.state)
      t.id).dirs b =
      if b = prior.state then
        insertEntry (s.dirs prior.state) t.id { content := t, mtime := now }
      else s.dirs b := by
    intro b
    rw [moveEntry_tmp_state _ prior.state t.id hlook1]
    simp only [dirs_setDir, dirs_setTmp, dirs_writeScratch]
  have hmid_prior : lookupEntry ((moveEntry (writeScratch now s t) .tmp
      (.state prior.state) t.id).dirs prior.state) t.id =
      some { content := t, mtime := now } := by
    rw [hmid_dirs, if_pos rfl]
    exact lookupEntry_insertEntry_self _ _ _
  have hfin : moveEntry (moveEntry (writeScratch now s t) .tmp (.state prior.state) t.id)
      (.state prior.state) (.state t.state) t.id =
      setDir (setDir (moveEntry (writeScratch now s t) .tmp (.state prior.state) t.id)
        prior.state (removeEntry ((moveEntry (writeScratch now s t) .tmp
          (.state prior.state) t.id).dirs prior.state) t.id))
        t.state (insertEntry ((moveEntry (writeScratch now s t) .tmp
          (.state prior.state) t.id).dirs t.state) t.id { content := t, mtime := now }) :=
    moveEntry_state_state _ hst t.id hmid_prior
  have hfin_dirs : ∀ b, (moveEntry (moveEntry (writeScratch now s t) .tmp
      (.state prior.state) t.id) (.state prior.state) (.state t.state) t.id).dirs b =
      if b = t.state then
        insertEntry (s.dirs t.state) t.id { content := t, mtime := now }
      else if b = prior.state then removeEntry (s.dirs prior.state) t.id
      else s.dirs b := by
    intro b
    rw [hfin]
    simp only [dirs_setDir]
    rw [hmid_dirs, hmid_dirs]
    rw [if_pos (rfl : prior.state = prior.state)]
    rw [removeEntry_insertEntry]
    rw [if_neg (fun hc => hst hc.symm : ¬ t.state = prior.state)]
    by_cases hb1 : b = t.state
    · rw [if_pos hb1, if_pos hb1]
    · rw [if_neg hb1, if_neg hb1]
      by_cases hb2 : b = prior.state
      · rw [if_pos hb2, if_pos hb2]
      · rw [if_neg hb2, if_neg hb2, hmid_dirs, if_neg hb2]
  constructor
  · unfold write_task
    rw [htmp]
    simp only [Option.isSome_none, Bool.false_eq_true, if_false, read_task_writeScratch,
      hread]
    rw [if_pos hst]
  · intro s3 hs3
    simp only [List.mem_cons, List.mem_singleton, List.not_mem_nil, or_false] at hs3
    rcases hs3 with rfl | rfl | rfl
    · constructor
      · left
        rw [read_task_writeScratch]
        exact hread
      · intro a b hab hna
        rw [dirs_writeScratch] at hna ⊢
        by_cases hap : a = prior.state
        · exact honly b (fun hc => hab (hap.trans hc.symm))
        · exact absurd (honly a hap) hna
    · constructor
      · right
        have := read_task_of_unique hmid_prior (fun b hb => by
          rw [hmid_dirs, if_neg hb]
          exact honly b hb)
        exact this
      · intro a b hab hna
        rw [hmid_dirs] at hna
        rw [hmid_dirs]
        by_cases hap : a = prior.state
        · rw [if_neg (fun hc => hab (hap.trans hc.symm))]
          exact honly b (fun hc => hab (hap.trans hc.symm))
        · rw [if_neg hap] at hna
          exact absurd (honly a hap) hna
    · constructor
      · right
        have hfl : lookupEntry ((moveEntry (moveEntry (writeScratch now s t) .tmp
            (.state prior.state) t.id) (.state prior.state) (.state t.state) t.id).dirs
            t.state) t.id = some { content := t, mtime := now } := by
          rw [hfin_dirs, if_pos rfl]
          exact lookupEntry_insertEntry_self _ _ _
        have := read_task_of_unique hfl (fun b hb => by
          rw [hfin_dirs, if_neg hb]
          by_cases hb2 : b = prior.state
          · rw [if_pos hb2]
            exact lookupEntry_removeEntry_self _ _
          · rw [if_neg hb2]
            exact honly b hb2)
        exact this
      · intro a b hab hna
        rw [hfin_dirs] at hna
        rw [hfin_dirs]
        by_cases hat : a = t.state
        · rw [if_neg (fun hc => hab (hat.trans hc.symm))]
          have hbt : b ≠ t.state := fun hc => hab (hat.trans hc.symm)
          by_cases hbp : b = prior.state
          · rw [if_pos hbp]
            exact lookupEntry_removeEntry_self _ _
          · rw [if_neg hbp]
            exact honly b hbp
        · rw [if_neg hat] at hna
          by_cases hap : a = prior.state
          · rw [if_pos hap] at hna
            exact absurd (lookupEntry_removeEntry_self _ _) hna
          · rw [if_neg hap] at hna
            exact absurd (honly a hap) hna
/-- The record of task "a" as rewritten for the `in_progress` state. -/
def newTaskA : Task Nat :=
  { id := "a",
    events := [{ time := 0, description := "Task created" },
      { time := 1, description := "Task started" }],
    state := .in_progress, data := 5 }

theorem claim2_witness :
    write_task 1 exQueue1 newTaskA =
      some (moveEntry (moveEntry (writeScratch 1 exQueue1 newTaskA) .tmp
        (.state taskA.state) "a") (.state taskA.state) (.state newTaskA.state) "a") :=
  (claim2_crash_steps 1 exQueue1 newTaskA taskA (by decide) (by decide) (by decide)
    (by decide)).1

/-- Modelled from the spec: step (b) of the write sequence the spec
claims — "move the old live file out of the way to the scratch area",
i.e. a rename of the prior live file from its state directory into
`tmp`. -/
def specMoveOldToScratch {α : Type} (s : QueueState α) (priorState : State)
    (n : String) : QueueState α :=
  moveEntry s (.state priorState) .tmp n

/-- C4 counterexample.  On a store holding task "a" in `waiting`, a
state-changing `write_task` to `in_progress` takes, as its middle
step, the rename of the NEW scratch file onto the old live path
(conjunct 1 ties this step to `write_task`).  After that middle step
the scratch area is empty (conjunct 2): the old live file was never
moved into the scratch area, it was overwritten in place — whereas the
sequence claimed by the spec (step (b), `specMoveOldToScratch`) would
leave the old record in `tmp` (conjunct 3).  The two mid-states differ
(conjunct 4), so `write_task` does not perform the claimed sequence. -/
theorem claim4_counterexample :
    write_task 1 exQueue1 newTaskA =
      some (moveEntry (moveEntry (writeScratch 1 exQueue1 newTaskA) .tmp
        (.state .waiting) "a") (.state .waiting) (.state .in_progress) "a") ∧
    (moveEntry (writeScratch 1 exQueue1 newTaskA) .tmp (.state .waiting) "a").tmp = [] ∧
    lookupEntry (specMoveOldToScratch (writeScratch 1 exQueue1 newTaskA)
      .waiting "a").tmp "a" = some fileA ∧
    moveEntry (writeScratch 1 exQueue1 newTaskA) .tmp (.state .waiting) "a" ≠
      specMoveOldToScratch (writeScratch 1 exQueue1 newTaskA) .waiting "a" := by
  decide

/-- C4 (amended).  When writing a task whose state is changing and a
prior copy exists, `write_task` performs exactly this sequence: (a)
write the new content to a fresh scratch file in `tmp`, (b) rename the
new scratch file onto the old live file's path in the prior state
directory — overwriting the old copy and emptying the scratch slot, so
after this step `tmp` is back to its original contents and the prior
state directory holds the NEW record — and (c) rename that file from
the prior state directory into the target state directory. -/
theorem claim4_write_sequence {α : Type} (now : Nat) (s : QueueState α) (t prior : Task α)
    (htmp : lookupEntry s.tmp t.id = none)
    (hread : read_task s t.id = some prior)
    (hst : prior.state ≠ t.state) :
    write_task now s t =
      some (moveEntry (moveEntry (writeScratch now s t) .tmp (.state prior.state) t.id)
        (.state prior.state) (.state t.state) t.id) ∧
    (moveEntry (writeScratch now s t) .tmp (.state prior.state) t.id).tmp = s.tmp ∧
    lookupEntry ((moveEntry (writeScratch now s t) .tmp (.state prior.state) t.id).dirs
      prior.state) t.id = some { content := t, mtime := now } := by
  refine ⟨?_, ?_, ?_⟩
  · unfold write_task
    rw [htmp]
    simp only [Option.isSome_none, Bool.false_eq_true, if_false, read_task_writeScratch,
      hread]
    rw [if_pos hst]
  · rw [moveEntry_tmp_state _ prior.state t.id
      (show lookupEntry (writeScratch now s t).tmp t.id = some { content := t, mtime := now }
        from lookupEntry_insertEntry_self _ _ _)]
    simp only [tmp_setDir, tmp_writeScratch, removeEntry_insertEntry]
    exact removeEntry_of_lookup_none _ _ htmp
  · rw [moveEntry_tmp_state _ prior.state t.id
      (show lookupEntry (writeScratch now s t).tmp t.id = some { content := t, mtime := now }
        from lookupEntry_insertEntry_self _ _ _)]
    rw [dirs_setDir, if_pos rfl]
    exact lookupEntry_insertEntry_self _ _ _

theorem claim4_witness :
    write_task 1 exQueue1 newTaskA =
      some (moveEntry (moveEntry (writeScratch 1 exQueue1 newTaskA) .tmp
        (.state taskA.state) "a") (.state taskA.state) (.state newTaskA.state) "a") ∧
    (moveEntry (writeScratch 1 exQueue1 newTaskA) .tmp (.state taskA.state) "a").tmp =
      exQueue1.tmp ∧
    lookupEntry ((moveEntry (writeScratch 1 exQueue1 newTaskA) .tmp
      (.state taskA.state) "a").dirs taskA.state) "a" =
      some { content := newTaskA, mtime := 1 } :=
  claim4_write_sequence 1 exQueue1 newTaskA taskA (by decide) (by decide) (by decide)
/-- C3 counterexample.  `mismatchQueue` holds the file for "t" in the
`in_progress` directory while the persisted record's state field says
`waiting`.  The next read returns the stored record unchanged — state
field still `waiting`, not corrected to the holding directory — and
the next write of that record places the new copy in the `waiting`
directory (the directory named by the record's state field) while the
stale copy stays in `in_progress`: the physical location is not
authoritative and the disagreement is not repaired on read or write,
contradicting the claim. -/
theorem claim3_counterexample :
    lookupEntry mismatchQueue.waiting "t" = none ∧
    (lookupEntry mismatchQueue.in_progress "t").isSome = true ∧
    (read_task mismatchQueue "t").map (fun r => r.state) = some State.waiting ∧
    (write_task 2 mismatchQueue taskT).map
      (fun s2 => ((lookupEntry s2.waiting "t").isSome,
        (lookupEntry s2.in_progress "t").isSome)) = some (true, true) := by
  decide

/-- C3 (amended).  After every successfully completed queue operation,
a task's persisted state field agrees with the state directory that
physically holds its file (and the file is named by the record's id).
When the two disagree, `read_task` returns the stored record
unchanged, and the next `write_task` places the record in the
directory named by its in-record state field: the record's state
field, not the physical location, is authoritative for writes. -/
theorem claim3_state_location_agreement {α : Type} :
    (∀ s : QueueState α, Reachable s → ∀ a n f, lookupEntry (s.dirs a) n = some f →
      f.content.state = a ∧ f.content.id = n) ∧
    (∀ (now : Nat) (s s2 : QueueState α) (t : Task α), write_task now s t = some s2 →
      lookupEntry (s2.dirs t.state) t.id = some { content := t, mtime := now }) := by
  constructor
  · intro s h a n f hl
    exact inv_agree (reachable_inv h) hl
  · intro now s s2 t hw
    have htmp : lookupEntry s.tmp t.id = none := by
      cases hl : lookupEntry s.tmp t.id with
      | none => rfl
      | some g =>
        unfold write_task at hw
        rw [if_pos (by rw [hl]; rfl)] at hw
        cases hw
    cases hr : read_task s t.id with
    | none =>
      rw [write_task_fresh now s t htmp hr] at hw
      have h2 := Option.some.inj hw
      rw [← h2, dirs_setDir, if_pos rfl]
      exact lookupEntry_insertEntry_self _ _ _
    | some prior =>
      by_cases hst : prior.state = t.state
      · rw [write_task_same_state now s t htmp hr hst] at hw
        have h2 := Option.some.inj hw
        rw [← h2, dirs_setDir, if_pos rfl]
        exact lookupEntry_insertEntry_self _ _ _
      · rw [write_task_state_change now s t htmp hr hst] at hw
        have h2 := Option.some.inj hw
        rw [← h2, dirs_setDir, if_pos rfl]
        exact lookupEntry_insertEntry_self _ _ _

theorem claim3_witness :
    (fileA.content.state = State.waiting ∧ fileA.content.id = "a") ∧
    lookupEntry (exQueue1.dirs taskA.state) taskA.id = some { content := taskA, mtime := 0 } :=
  ⟨(claim3_state_location_agreement (α := Nat)).1 exQueue1 exQueue1_reachable .waiting
      "a" fileA (by decide),
   (claim3_state_location_agreement (α := Nat)).2 0 (emptyQueue Nat) exQueue1 taskA
      (by decide)⟩
theorem getLast_snoc {α : Type} (l : List α) (e : α) : (l ++ [e]).getLast? = some e := by
  rw [List.getLast?_append_cons]
  rfl

/-- C6.  For a claimed task, an exception raised by the caller's
handler is caught by `process_single_task` (the iteration still
returns normally) and the task is transitioned to the terminal
`failed` state, with a final event whose description is the literal
prefix "Task failed with an exception: " followed by the exception's
message verbatim; if the handler returns without raising, the task is
transitioned to `completed` with the "Task completed without
exception" event. -/
theorem claim6_handler_outcomes {α : Type} (handler : Task α → Except String Unit)
    (t1 t2 : Nat) (s : QueueState α) (f : String) (file : FsFile α)
    (hinv : invB s = true)
    (hna : next_available_task s = some f)
    (hw : lookupEntry s.waiting f = some file)
    (htmp : lookupEntry s.tmp f = none) :
    (∀ msg, handler (withEvent file.content (some .in_progress) t1 "Task started") =
        .error msg →
      ∃ s2 tfin, process_single_task handler t1 t2 s = some s2 ∧
        lookupEntry s2.failed f = some { content := tfin, mtime := t2 } ∧
        read_task s2 f = some tfin ∧
        tfin.state = State.failed ∧
        tfin.events.getLast? = some
          { time := t2,
            description := "Task failed with an exception: " ++ msg } ∧
        lookupEntry s2.waiting f = none ∧ lookupEntry s2.in_progress f = none ∧
        lookupEntry s2.completed f = none) ∧
    (handler (withEvent file.content (some .in_progress) t1 "Task started") = .ok () →
      ∃ s2 tfin, process_single_task handler t1 t2 s = some s2 ∧
        lookupEntry s2.completed f = some { content := tfin, mtime := t2 } ∧
        read_task s2 f = some tfin ∧
        tfin.state = State.completed ∧
        tfin.events.getLast? = some
          { time := t2,
            description := "Task completed without exception" }) := by
  have hcompleted : lookupEntry (s.dirs .completed) f = none :=
    inv_disjoint hinv (show lookupEntry (s.dirs .waiting) f = some file from hw)
      (by decide)
  have hfailed : lookupEntry (s.dirs .failed) f = none :=
    inv_disjoint hinv (show lookupEntry (s.dirs .waiting) f = some file from hw)
      (by decide)
  constructor
  · intro msg hh
    refine ⟨_, withEvent (withEvent file.content (some .in_progress) t1 "Task started")
      (some .failed) t2 ("Task failed with an exception: " ++ msg),
      process_spec_error handler t1 t2 hinv hna hw htmp hh, ?_, ?_, ?_, ?_, ?_, ?_, ?_⟩
    · exact lookupEntry_insertEntry_self _ _ _
    · unfold read_task
      rw [show ({ s with
          waiting := removeEntry s.waiting f,
          in_progress := removeEntry s.in_progress f,
          failed := insertEntry s.failed f
            { content := withEvent (withEvent file.content (some .in_progress) t1
                "Task started") (some .failed) t2
                ("Task failed with an exception: " ++ msg),
              mtime := t2 } } : QueueState α).waiting = removeEntry s.waiting f from rfl]
      rw [lookupEntry_removeEntry_self, lookupEntry_removeEntry_self,
        lookupEntry_insertEntry_self]
    · rfl
    · rw [withEvent_events]
      exact getLast_snoc _ _
    · exact lookupEntry_removeEntry_self _ _
    · exact lookupEntry_removeEntry_self _ _
    · exact hcompleted
  · intro hh
    refine ⟨_, withEvent (withEvent file.content (some .in_progress) t1 "Task started")
      (some .completed) t2 "Task completed without exception",
      process_spec_ok handler t1 t2 hinv hna hw htmp hh, ?_, ?_, ?_, ?_⟩
    · exact lookupEntry_insertEntry_self _ _ _
    · unfold read_task
      rw [show ({ s with
          waiting := removeEntry s.waiting f,
          in_progress := removeEntry s.in_progress f,
          completed := insertEntry s.completed f
            { content := withEvent (withEvent file.content (some .in_progress) t1
                "Task started") (some .completed) t2
                "Task completed without exception",
              mtime := t2 } } : QueueState α).waiting = removeEntry s.waiting f from rfl]
      rw [lookupEntry_removeEntry_self, lookupEntry_removeEntry_self,
        (show lookupEntry s.failed f = none from hfailed),
        lookupEntry_insertEntry_self]
    · rfl
    · rw [withEvent_events]
      exact getLast_snoc _ _
def failHandler : Task Nat → Except String Unit := fun _ => .error "disk full"

def okHandler : Task Nat → Except String Unit := fun _ => .ok ()

theorem claim6_witness :
    (∃ s2 tfin, process_single_task failHandler 1 2 exQueue1 = some s2 ∧
      lookupEntry s2.failed "a" = some { content := tfin, mtime := 2 } ∧
      read_task s2 "a" = some tfin ∧ tfin.state = State.failed ∧
      tfin.events.getLast? = some
        { time := 2, description := "Task failed with an exception: " ++ "disk full" } ∧
      lookupEntry s2.waiting "a" = none ∧ lookupEntry s2.in_progress "a" = none ∧
      lookupEntry s2.completed "a" = none) ∧
    (∃ s2 tfin, process_single_task okHandler 1 2 exQueue1 = some s2 ∧
      lookupEntry s2.completed "a" = some { content := tfin, mtime := 2 } ∧
      read_task s2 "a" = some tfin ∧ tfin.state = State.completed ∧
      tfin.events.getLast? = some
        { time := 2, description := "Task completed without exception" }) :=
  ⟨(claim6_handler_outcomes failHandler 1 2 exQueue1 "a" fileA (by decide) (by decide)
      (by decide) (by decide)).1 "disk full" rfl,
   (claim6_handler_outcomes okHandler 1 2 exQueue1 "a" fileA (by decide) (by decide)
      (by decide) (by decide)).2 rfl⟩
theorem start_task_dirs {α : Type} {s s2 : QueueState α} {id : String} {now : Nat} {p : α}
    (hfresh : read_task s id = none)
    (hs : start_task now s id p = some s2) :
    s2.waiting = insertEntry s.waiting id
      { content :=
          { id := id,
            events := [{ time := now, description := "Task created" }],
            state := .waiting,
            data := p },
        mtime := now } ∧
    s2.in_progress = s.in_progress ∧ s2.failed = s.failed ∧
    s2.completed = s.completed ∧ s2.tmp = s.tmp := by
  have htmp : lookupEntry s.tmp id = none := by
    cases hl : lookupEntry s.tmp id with
    | none => rfl
    | some g => simp [start_task, write_task, hl] at hs
  unfold start_task at hs
  rw [write_task_fresh now s _ htmp hfresh] at hs
  have h2 := Option.some.inj hs
  rw [← h2]
  exact ⟨rfl, rfl, rfl, rfl, rfl⟩

theorem next_available_singleton {α : Type} {s2 : QueueState α} {n : String}
    {g : FsFile α} (h : s2.waiting = [(n, g)]) : next_available_task s2 = some n := by
  unfold next_available_task
  rw [h]
  rfl

theorem next_available_pair {α : Type} {s2 : QueueState α} {n1 n2 : String}
    {g1 g2 : FsFile α} (h : s2.waiting = [(n1, g1), (n2, g2)])
    (hle : g1.mtime ≤ g2.mtime) : next_available_task s2 = some n1 := by
  unfold next_available_task
  rw [h]
  simp only [List.map_cons, List.map_nil]
  rw [show minByMtime [(n1, g1.mtime), (n2, g2.mtime)] =
      if g2.mtime < g1.mtime then some (n2, g2.mtime) else some (n1, g1.mtime) from rfl]
  rw [if_neg (not_lt.mpr hle)]
  rfl
theorem start_task_inv {α : Type} {s s2 : QueueState α} {id : String} {now : Nat} {p : α}
    (hinv : invB s = true) (hfresh : read_task s id = none)
    (hs : start_task now s id p = some s2) : invB s2 = true := by
  have htmp : lookupEntry s.tmp id = none := by
    cases hl : lookupEntry s.tmp id with
    | none => rfl
    | some g => simp [start_task, write_task, hl] at hs
  unfold start_task at hs
  rw [write_task_fresh now s _ htmp hfresh] at hs
  have h2 := Option.some.inj hs
  rw [← h2]
  have hnone : ∀ b, lookupEntry (s.dirs b) id = none := by
    obtain ⟨h1, h3, h4, h5⟩ := (read_task_none_iff s id).mp hfresh
    intro b
    cases b
    · exact h1
    · exact h3
    · exact h4
    · exact h5
  exact inv_place hinv hnone rfl rfl

/-- C5.  `_next_available_task` selects a waiting task of minimal
modification time (first such in listing order — an arbitrary but
deterministic tie-break, since the selection is a function of the
directory listing); consequently, starting from an empty waiting
directory, two enqueues in immediate succession (modification times in
order) followed by two claims with no intervening completion yield the
two tasks in enqueue (FIFO) order. -/
theorem claim5_fifo {α : Type} :
    (∀ (s : QueueState α) (f : String), invB s = true → next_available_task s = some f →
      ∃ file, lookupEntry s.waiting f = some file ∧
        ∀ e ∈ s.waiting, file.mtime ≤ e.2.mtime) ∧
    (∀ (s : QueueState α) (id1 id2 : String) (p1 p2 : α) (t1 t2 u1 u2 : Nat)
        (sA sB : QueueState α),
      invB s = true → s.waiting = [] →
      read_task s id1 = none → read_task s id2 = none →
      lookupEntry s.tmp id1 = none → lookupEntry s.tmp id2 = none →
      id1 ≠ id2 → t1 ≤ t2 →
      start_task t1 s id1 p1 = some sA →
      start_task t2 sA id2 p2 = some sB →
      ∃ sC task1 sD task2,
        claim_phase u1 sB = some (sC, some task1) ∧ task1.id = id1 ∧
        claim_phase u2 sC = some (sD, some task2) ∧ task2.id = id2) := by
  constructor
  · intro s f hinv hna
    exact next_available_some (inv_nodup hinv .waiting) hna
  · intro s id1 id2 p1 p2 t1 t2 u1 u2 sA sB hinv hwempty hf1 hf2 htmp1 htmp2 hne hle
      hsA hsB
    obtain ⟨hAw, hAi, hAf, hAc, hAt⟩ := start_task_dirs hf1 hsA
    have hf2four := (read_task_none_iff s id2).mp hf2
    have hfA2 : read_task sA id2 = none := by
      apply (read_task_none_iff sA id2).mpr
      refine ⟨?_, ?_, ?_, ?_⟩
      · rw [hAw]
        rw [lookupEntry_insertEntry_ne _ _ _ _ (fun hc => hne hc.symm)]
        exact hf2four.1
      · rw [hAi]
        exact hf2four.2.1
      · rw [hAf]
        exact hf2four.2.2.1
      · rw [hAc]
        exact hf2four.2.2.2
    obtain ⟨hBw0, hBi, hBf, hBc, hBt⟩ := start_task_dirs hfA2 hsB
    have hBw : sB.waiting = [(id1,
        { content :=
            { id := id1,
              events := [{ time := t1, description := "Task created" }],
              state := State.waiting,
              data := p1 },
          mtime := t1 }), (id2,
        { content :=
            { id := id2,
              events := [{ time := t2, description := "Task created" }],
              state := State.waiting,
              data := p2 },
          mtime := t2 })] := by
      rw [hBw0, hAw, hwempty]
      simp only [insertEntry]
      rw [if_neg hne]
    have hBtmp : lookupEntry sB.tmp id1 = none := by
      rw [hBt, hAt]
      exact htmp1
    have hBtmp2 : lookupEntry sB.tmp id2 = none := by
      rw [hBt, hAt]
      exact htmp2
    have hinvA : invB sA = true := start_task_inv hinv hf1 hsA
    have hinvB : invB sB = true := start_task_inv hinvA hfA2 hsB
    have hnaB : next_available_task sB = some id1 := next_available_pair hBw hle
    have hwB1 : lookupEntry sB.waiting id1 = some
        { content :=
            { id := id1,
              events := [{ time := t1, description := "Task created" }],
              state := State.waiting,
              data := p1 },
          mtime := t1 } := by
      rw [hBw, lookupEntry_cons]
      rw [if_pos rfl]
    have hclaim1 := claim_spec u1 hinvB hnaB hwB1 hBtmp
    have hCw : removeEntry sB.waiting id1 = [(id2,
        { content :=
            { id := id2,
              events := [{ time := t2, description := "Task created" }],
              state := State.waiting,
              data := p2 },
          mtime := t2 })] := by
      rw [hBw]
      rw [removeEntry_cons, if_pos rfl, removeEntry_cons,
        if_neg (fun hc => hne hc.symm)]
      rfl
    have hwC2 : lookupEntry (removeEntry sB.waiting id1) id2 = some
        { content :=
            { id := id2,
              events := [{ time := t2, description := "Task created" }],
              state := State.waiting,
              data := p2 },
          mtime := t2 } := by
      rw [hCw, lookupEntry_cons]
      rw [if_pos rfl]
    have hinvC := inv_after_claim u1 hinvB hwB1
    exact ⟨_, _, _, _, hclaim1, rfl,
      claim_spec u2 hinvC (next_available_singleton hCw) hwC2 hBtmp2, rfl⟩
def task5a : Task Nat :=
  { id := "a", events := [{ time := 0, description := "Task created" }],
    state := .waiting, data := 1 }

def task5b : Task Nat :=
  { id := "b", events := [{ time := 1, description := "Task created" }],
    state := .waiting, data := 2 }

/-- The store after enqueueing "a" at time 0 on a fresh store. -/
def exA5 : QueueState Nat :=
  { waiting := [("a", { content := task5a, mtime := 0 })],
    in_progress := [], failed := [], completed := [], tmp := [] }

/-- The store after also enqueueing "b" at time 1. -/
def exB5 : QueueState Nat :=
  { waiting := [("a", { content := task5a, mtime := 0 }),
      ("b", { content := task5b, mtime := 1 })],
    in_progress := [], failed := [], completed := [], tmp := [] }

theorem claim5_witness :
    (∃ file, lookupEntry exB5.waiting "a" = some file ∧
      ∀ e ∈ exB5.waiting, file.mtime ≤ e.2.mtime) ∧
    (∃ sC task1 sD task2,
      claim_phase 2 exB5 = some (sC, some task1) ∧ task1.id = "a" ∧
      claim_phase 3 sC = some (sD, some task2) ∧ task2.id = "b") :=
  ⟨(claim5_fifo (α := Nat)).1 exB5 "a" (by decide) (by decide),
   (claim5_fifo (α := Nat)).2 (emptyQueue Nat) "a" "b" 1 2 0 1 2 3 exA5 exB5
     (by decide) rfl (by decide) (by decide) (by decide) (by decide) (by decide)
     (by decide) (by decide) (by decide)⟩
